import Mathlib

/-!
Verification of the AgentNet retrieval-and-dispatch core.

This file shallowly embeds the pure content of the repository's Python
modules and proves (or refutes) the frozen specification claims about them:

* `src/models/RAG.py` — description sanitization, chunk grouping,
  reciprocal-rank server ranking and the `ensure_vectordb` index life cycle;
* `orchestrator.py` — heuristic tool selection and JSON-schema-validated
  argument planning;
* `src/models/workflow.py` — endpoint derivation from catalog child links,
  the direct-answer option, and the direct vs MCP execution split.

Modelling conventions, applied uniformly:

* Python strings are modelled by `String` / `List Char`; the handful of
  regular expressions in the source are compiled by hand into specialised,
  executable matchers whose doc comments state the regex they implement.
* 64-bit floating point scores (reciprocal-rank weights) are modelled by
  exact rationals `ℚ`; the ranking logic only adds and compares these
  values, and every claim in scope is about the algorithm, not about
  rounding of binary floats. The purely presentational `round(score, 4)`
  applied by the source to the reported score is therefore not modelled:
  sorting happens on the unrounded values in the source as well.
* External capabilities (the Chroma vector store, GCS sync, the OpenAI
  chat/embedding clients, the MCP tool server) are modelled as explicit
  environments/oracles supplied as arguments, exactly at the boundary where
  the source calls into them; control flow around those calls is translated
  faithfully from the source.
* Python exceptions are modelled with `Except`; `None`-able values with
  `Option`.
-/

namespace AgentNet

/-! ## Python string primitives -/

/-- Python `\s` (ASCII): the whitespace class used by `str.strip()` and the
`\s+` collapse regex in `RAG.sanitize_description`. -/
def isPyWs (c : Char) : Bool :=
  c = ' ' || c = '\t' || c = '\n' || c = '\r' || c = '\x0b' || c = '\x0c'

/-- Python `str.strip()` on a character list: drop leading and trailing
whitespace. -/
def stripWs (l : List Char) : List Char :=
  ((l.dropWhile isPyWs).reverse.dropWhile isPyWs).reverse

/-- Python `str.strip()` packaged on `String`. -/
def pyStrip (s : String) : String :=
  String.mk (stripWs s.toList)

/-- Python `str.strip(c)` for a single character `c` (used as `.strip("/")`):
drop that character from both ends. -/
def stripCharEnds (c : Char) (l : List Char) : List Char :=
  ((l.dropWhile (· = c)).reverse.dropWhile (· = c)).reverse

/-- Does `pat` occur at the head of `l`? (Helper for the substring and
ends-with tests below.) -/
def leadMatch : List Char → List Char → Bool
  | [], _ => true
  | _ :: _, [] => false
  | a :: as, b :: bs => a = b && leadMatch as bs

/-- Python `pat in s` (substring containment). The empty pattern is contained
in every string, as in Python. -/
def hasSub (pat : List Char) : List Char → Bool
  | [] => pat.isEmpty
  | c :: t => leadMatch pat (c :: t) || hasSub pat t

/-- Python `pat in s` on `String`. -/
def strContains (s pat : String) : Bool :=
  hasSub pat.toList s.toList

/-- Python `s.endswith(pat)`. -/
def strEndsWith (s pat : String) : Bool :=
  leadMatch pat.toList.reverse s.toList.reverse

/-- Python `str.lower()` (the source only lowercases ASCII tool names,
descriptions and task text). -/
def lowerStr (s : String) : String :=
  String.mk (s.toList.map Char.toLower)

/-- Python `str.split()` with no argument: split on whitespace runs,
producing no empty tokens. The first list is the remaining input, the second
accumulates the current (reversed) token. -/
def splitWsGo : List Char → List Char → List String
  | [], cur => if cur.isEmpty then [] else [String.mk cur.reverse]
  | c :: t, cur =>
    if isPyWs c then
      if cur.isEmpty then splitWsGo t [] else String.mk cur.reverse :: splitWsGo t []
    else splitWsGo t (c :: cur)

/-- Python `s.split()`. -/
def splitWs (s : String) : List String :=
  splitWsGo s.toList []

/-! ## `RAG.sanitize_description` (RAG.py lines 25–26 and 42–47)

The source compiles two regexes and applies them as `re.sub(pattern, " ", …)`:

* `_TAG_BLOCK_RE = <[^>]+>(.*?)</[^>]+>` (DOTALL) — note that `re.sub`
  replaces the whole match, inner group included, with a single space;
* `_TAG_SINGLE_RE = <[^>/]+(?:/?)>` (DOTALL);

followed by `re.sub(r"\s+", " ", desc).strip()`.
-/

/-- Split `l` at the first occurrence of `c`: returns the (possibly empty)
run before it and the suffix after it, or `none` when `c` does not occur. -/
def splitAtChar (c : Char) : List Char → Option (List Char × List Char)
  | [] => none
  | x :: xs =>
    if x = c then some ([], xs)
    else
      match splitAtChar c xs with
      | some (b, a) => some (x :: b, a)
      | none => none

/-- Match the regex `<[^>]+>` at the head of `l`: a `<`, then a nonempty run
of non-`>` characters, then the next `>`. Returns the suffix after the `>`. -/
def matchOpenTag : List Char → Option (List Char)
  | '<' :: rest =>
    match splitAtChar '>' rest with
    | some (before, after) => if before.isEmpty then none else some after
    | none => none
  | _ => none

/-- Match the regex `</[^>]+>` at the head of `l`. Returns the suffix after
the `>`. -/
def matchCloseTag : List Char → Option (List Char)
  | '<' :: '/' :: rest =>
    match splitAtChar '>' rest with
    | some (before, after) => if before.isEmpty then none else some after
    | none => none
  | _ => none

/-- Scan forward for the earliest position at which `</[^>]+>` matches
(the lazy `(.*?)` of `_TAG_BLOCK_RE` stops at the first closing tag) and
return the suffix after that closing tag. -/
def findCloseTag : List Char → Option (List Char)
  | [] => none
  | c :: t =>
    match matchCloseTag (c :: t) with
    | some a => some a
    | none => findCloseTag t

/-- Match `_TAG_BLOCK_RE` at the head of `l`: an opening tag, any (lazy)
content, and the earliest closing tag after it. Returns the suffix after the
whole match. -/
def matchTagBlock (l : List Char) : Option (List Char) :=
  (matchOpenTag l).bind findCloseTag

/-- One pass of `_TAG_BLOCK_RE.sub(" ", …)`: at each position, replace a
match of the block pattern by a single space and resume after it, otherwise
keep the character. `fuel` only bounds recursion; it is instantiated with
the input length, which suffices since every step consumes at least one
character. -/
def tagBlockSubGo : Nat → List Char → List Char
  | 0, l => l
  | _ + 1, [] => []
  | fuel + 1, c :: t =>
    match matchTagBlock (c :: t) with
    | some a => ' ' :: tagBlockSubGo fuel a
    | none => c :: tagBlockSubGo fuel t

/-- `_TAG_BLOCK_RE.sub(" ", l)`. -/
def tagBlockSub (l : List Char) : List Char :=
  tagBlockSubGo l.length l

/-- Match `_TAG_SINGLE_RE = <[^>/]+(?:/?)>` at the head of `l`: a `<`, a
nonempty run of characters that are neither `>` nor `/`, an optional `/`,
then `>`. Returns the suffix after the `>`. -/
def matchSingleTag : List Char → Option (List Char)
  | '<' :: rest =>
    let run := rest.takeWhile (fun c => c ≠ '>' && c ≠ '/')
    let rem := rest.dropWhile (fun c => c ≠ '>' && c ≠ '/')
    if run.isEmpty then none
    else
      match rem with
      | '>' :: after => some after
      | '/' :: '>' :: after => some after
      | _ => none
  | _ => none

/-- One pass of `_TAG_SINGLE_RE.sub(" ", …)`, fuelled like `tagBlockSubGo`. -/
def tagSingleSubGo : Nat → List Char → List Char
  | 0, l => l
  | _ + 1, [] => []
  | fuel + 1, c :: t =>
    match matchSingleTag (c :: t) with
    | some a => ' ' :: tagSingleSubGo fuel a
    | none => c :: tagSingleSubGo fuel t

/-- `_TAG_SINGLE_RE.sub(" ", l)`. -/
def tagSingleSub (l : List Char) : List Char :=
  tagSingleSubGo l.length l

/-- The regex substitution `re.sub(r"\s+", " ", …)`: collapse every maximal
whitespace run to a single space. -/
def wsCollapseGo : Nat → List Char → List Char
  | 0, l => l
  | _ + 1, [] => []
  | fuel + 1, c :: t =>
    if isPyWs c then ' ' :: wsCollapseGo fuel (t.dropWhile isPyWs)
    else c :: wsCollapseGo fuel t

/-- `re.sub(r"\s+", " ", l)`. -/
def wsCollapse (l : List Char) : List Char :=
  wsCollapseGo l.length l

/-- Translation of `RAG.sanitize_description`: the empty-string fast path
(`if not desc`), then the two tag substitutions, then whitespace collapse and
a final `strip()`. -/
def sanitize_description (desc : String) : String :=
  if desc = "" then ""
  else String.mk (stripWs (wsCollapse (tagSingleSub (tagBlockSub desc.toList))))

/-! ## `RAG.score_and_rank_servers` (RAG.py lines 262–313)

The similarity search is an external capability; the function is embedded as
a function of the list of documents that the search returned best-first
(`docs = vectordb.similarity_search(query, k=k_tools)`). Document metadata is
the string-valued mapping written by `index_chunks`; a missing key reads as
the empty string, exactly as `metadata.get(key, "")` does.
-/

structure DocMeta where
  server_name : String
  child_link : String
  tool_name : String
  tool_slug : String
  deriving DecidableEq

structure Doc where
  metadata : DocMeta
  page_content : String
  deriving DecidableEq

/-- One entry of the `grouped` insertion-ordered dictionary: accumulated
reciprocal-rank score and the contributing documents in hit order. -/
structure Group where
  server : String
  score : ℚ
  docs : List Doc
  deriving DecidableEq

/-- Record one hit against the insertion-ordered group list, as
`grouped[server_name]["score"] += weight; grouped[server_name]["docs"].append(doc)`
does on a `defaultdict`: update the first group with this server name, or
append a fresh group at the end. -/
def addHit (name : String) (w : ℚ) (d : Doc) : List Group → List Group
  | [] => [⟨name, w, [d]⟩]
  | g :: gs =>
    if g.server = name then { g with score := g.score + w, docs := g.docs ++ [d] } :: gs
    else g :: addHit name w d gs

/-- The grouping loop `for rank, doc in enumerate(docs, start=1)`: hits whose
metadata carries no (non-empty) `server_name` are skipped but still consume
their rank position; the others contribute weight `1 / rank`. -/
def groupHits : List Doc → Nat → List Group → List Group
  | [], _, acc => acc
  | d :: ds, rank, acc =>
    if d.metadata.server_name = "" then groupHits ds (rank + 1) acc
    else groupHits ds (rank + 1) (addHit d.metadata.server_name ((1 : ℚ) / rank) d acc)

/-- The fully accumulated `grouped.items()` list, in first-occurrence order. -/
def groupedServers (docs : List Doc) : List Group :=
  groupHits docs 1 []

/-- The ranked-server records emitted by the source. The `why` justification
string (a `textwrap.shorten` presentation of up to three contributing
chunks) is presentational and referenced by no claim, so it is not modelled;
`score` is the exact rational the source sorts on (the source additionally
rounds the reported copy to 4 decimals for display). -/
structure RankedServer where
  server : String
  child_link : String
  score : ℚ
  deriving DecidableEq

/-- The `child_link` picked for a retained server: from the first
contributing hit whose metadata has a non-empty `child_link`, else `""`
(the `next(... if doc.metadata.get("child_link") ...)` generator). -/
def groupChildLink : List Doc → String
  | [] => ""
  | d :: ds => if d.metadata.child_link = "" then groupChildLink ds else d.metadata.child_link

/-- Project a group onto its emitted record. -/
def toRanked (g : Group) : RankedServer :=
  ⟨g.server, groupChildLink g.docs, g.score⟩

/-- The comparison realised by
`sorted(grouped.items(), key=lambda item: item[1]["score"], reverse=True)`:
descending by score, with ties keeping the earlier element (Python's sort is
stable, as is `List.insertionSort` with this relation). -/
def rankGE (a b : Group) : Prop :=
  b.score ≤ a.score

instance : DecidableRel rankGE :=
  fun a b => inferInstanceAs (Decidable (b.score ≤ a.score))

instance : IsTotal Group rankGE :=
  ⟨fun a b => le_total b.score a.score⟩

instance : IsTrans Group rankGE :=
  ⟨fun _ _ _ h h' => le_trans h' h⟩

/-- The full descending ranking before the `[:top_servers]` truncation. -/
def rank_servers_full (docs : List Doc) : List RankedServer :=
  ((groupedServers docs).insertionSort rankGE).map toRanked

/-- Translation of `RAG.score_and_rank_servers`, as a function of the
best-first retrieval result: group, rank descending by accumulated score,
truncate to `top_servers`, and emit the per-server records. (The source
truncates the group list and then builds the records; truncation and the
per-group projection commute, so it is embedded as a truncation of
`rank_servers_full`.) -/
def score_and_rank_servers (docs : List Doc) (top_servers : Nat) : List RankedServer :=
  (rank_servers_full docs).take top_servers

/-- Specification-side score: the sum, over the hits at 1-based overall
positions `rank, rank+1, …` whose `server_name` equals `s`, of the
reciprocal-rank weights `1 / position`. -/
def rrScoreFrom (rank : Nat) (docs : List Doc) (s : String) : ℚ :=
  match docs with
  | [] => 0
  | d :: ds =>
    (if d.metadata.server_name = s then (1 : ℚ) / rank else 0) + rrScoreFrom (rank + 1) ds s

/-- Reciprocal-rank score of server `s` over the overall returned ordering,
1-based — the aggregate the claims describe. -/
def rrScore (docs : List Doc) (s : String) : ℚ :=
  rrScoreFrom 1 docs s

/-- Score recorded for `s` by the first group carrying that name (`0` when no
group does). On a server-nodup group list this is the accumulated score. -/
def lookupScore : List Group → String → ℚ
  | [], _ => 0
  | g :: gs, s => if g.server = s then g.score else lookupScore gs s

theorem lookupScore_addHit (n : String) (w : ℚ) (d : Doc) (acc : List Group) (s : String) :
    lookupScore (addHit n w d acc) s = lookupScore acc s + (if n = s then w else 0) := by
  induction acc with
  | nil =>
    by_cases h : n = s <;> simp [addHit, lookupScore, h]
  | cons g gs ih =>
    by_cases h1 : g.server = n
    · by_cases h2 : g.server = s
      · have hn : n = s := h1 ▸ h2
        simp [addHit, lookupScore, h1, h2, hn, add_comm]
      · have hn : ¬ n = s := fun h => h2 (h1.trans h)
        simp [addHit, lookupScore, h1, h2, hn]
    · by_cases h2 : g.server = s
      · have hn : ¬ n = s := fun h => h1 (h2.trans h.symm)
        have hsn : ¬ s = n := fun h => hn h.symm
        simp [addHit, lookupScore, h1, h2, hn, hsn]
      · simp [addHit, lookupScore, h1, h2, ih]

theorem lookupScore_groupHits (docs : List Doc) :
    ∀ (rank : Nat) (acc : List Group) (s : String), s ≠ "" →
      lookupScore (groupHits docs rank acc) s = lookupScore acc s + rrScoreFrom rank docs s := by
  induction docs with
  | nil => intro rank acc s _; simp [groupHits, rrScoreFrom]
  | cons d ds ih =>
    intro rank acc s hs
    by_cases h : d.metadata.server_name = ""
    · have hne : ¬ ("" : String) = s := fun hc => hs hc.symm
      simp [groupHits, rrScoreFrom, h, hne, ih (rank + 1) acc s hs]
    · simp [groupHits, rrScoreFrom, h, ih (rank + 1) _ s hs, lookupScore_addHit, add_assoc]

theorem addHit_server_pred {P : String → Prop} (n : String) (w : ℚ) (d : Doc) :
    ∀ acc : List Group, (∀ g ∈ acc, P g.server) → P n →
      ∀ g ∈ addHit n w d acc, P g.server := by
  intro acc
  induction acc with
  | nil =>
    intro _ hn g hg
    simp [addHit] at hg
    rw [hg]
    exact hn
  | cons g' gs ih =>
    intro hacc hn g hg
    by_cases h1 : g'.server = n
    · simp [addHit, h1] at hg
      rcases hg with hg | hg
      · rw [hg]
        exact hn
      · exact hacc g (by simp [hg])
    · simp [addHit, h1] at hg
      rcases hg with hg | hg
      · exact hacc g (by simp [hg])
      · exact ih (fun g hg => hacc g (by simp [hg])) hn g hg

theorem groupHits_server_ne (docs : List Doc) :
    ∀ (rank : Nat) (acc : List Group), (∀ g ∈ acc, g.server ≠ "") →
      ∀ g ∈ groupHits docs rank acc, g.server ≠ "" := by
  induction docs with
  | nil => intro rank acc hacc; simpa [groupHits] using hacc
  | cons d ds ih =>
    intro rank acc hacc
    by_cases h : d.metadata.server_name = ""
    · simpa [groupHits, h] using ih (rank + 1) acc hacc
    · exact fun g hg => ih (rank + 1) _
        (addHit_server_pred (P := fun x => x ≠ "") _ _ _ acc hacc h) g
        (by simpa [groupHits, h] using hg)

theorem addHit_servers (n : String) (w : ℚ) (d : Doc) :
    ∀ acc : List Group,
      (addHit n w d acc).map Group.server =
        if n ∈ acc.map Group.server then acc.map Group.server
        else acc.map Group.server ++ [n] := by
  intro acc
  induction acc with
  | nil => simp [addHit]
  | cons g gs ih =>
    by_cases h1 : g.server = n
    · simp [addHit, h1]
    · have : ¬ n = g.server := fun h => h1 h.symm
      by_cases h2 : n ∈ gs.map Group.server <;> simp [addHit, h1, ih, h2, this]

theorem addHit_servers_nodup (n : String) (w : ℚ) (d : Doc) (acc : List Group)
    (h : (acc.map Group.server).Nodup) : ((addHit n w d acc).map Group.server).Nodup := by
  rw [addHit_servers]
  by_cases hmem : n ∈ acc.map Group.server
  · simpa [hmem] using h
  · rw [if_neg hmem]
    refine List.Nodup.append h (List.nodup_singleton n) ?_
    intro a ha hb
    simp at hb
    exact hmem (hb ▸ ha)

theorem groupHits_servers_nodup (docs : List Doc) :
    ∀ (rank : Nat) (acc : List Group), (acc.map Group.server).Nodup →
      ((groupHits docs rank acc).map Group.server).Nodup := by
  induction docs with
  | nil => intro rank acc h; simpa [groupHits] using h
  | cons d ds ih =>
    intro rank acc h
    by_cases hn : d.metadata.server_name = ""
    · simpa [groupHits, hn] using ih (rank + 1) acc h
    · simpa [groupHits, hn] using ih (rank + 1) _ (addHit_servers_nodup _ _ _ _ h)

theorem lookupScore_of_mem :
    ∀ (l : List Group) (g : Group), (l.map Group.server).Nodup → g ∈ l →
      lookupScore l g.server = g.score := by
  intro l
  induction l with
  | nil => intro g _ hg; simp at hg
  | cons h t ih =>
    intro g hnd hg
    rcases List.mem_cons.mp hg with hg | hg
    · simp [lookupScore, hg]
    · have hne : h.server ≠ g.server := by
        intro hc
        have : g.server ∈ t.map Group.server := List.mem_map_of_mem Group.server hg
        simp at hnd
        exact hnd.1 g hg hc.symm
      simp [lookupScore, hne]
      exact ih g (by simp at hnd; exact hnd.2) hg

/-- Characterisation of the grouping pass: every accumulated group carries a
non-empty server name, and its score is exactly the reciprocal-rank sum of
the hits bearing that name, weighted by their 1-based overall positions. -/
theorem groupedServers_spec (docs : List Doc) (g : Group) (hg : g ∈ groupedServers docs) :
    g.server ≠ "" ∧ g.score = rrScore docs g.server := by
  have hne : g.server ≠ "" :=
    groupHits_server_ne docs 1 [] (by simp) g hg
  refine ⟨hne, ?_⟩
  have hnd : ((groupedServers docs).map Group.server).Nodup :=
    groupHits_servers_nodup docs 1 [] (by simp)
  have h1 : lookupScore (groupedServers docs) g.server = g.score :=
    lookupScore_of_mem _ g hnd hg
  have h2 : lookupScore (groupedServers docs) g.server = rrScore docs g.server := by
    simpa [lookupScore, rrScore] using lookupScore_groupHits docs 1 [] g.server hne
  exact h1.symm.trans h2

/-- A grouping pass over hits that all lack a server name accumulates
nothing. -/
theorem groupHits_all_empty (docs : List Doc) :
    ∀ (rank : Nat) (acc : List Group), (∀ d ∈ docs, d.metadata.server_name = "") →
      groupHits docs rank acc = acc := by
  induction docs with
  | nil => intro rank acc _; simp [groupHits]
  | cons d ds ih =>
    intro rank acc h
    have hd : d.metadata.server_name = "" := h d (by simp)
    simp [groupHits, hd, ih (rank + 1) acc (fun d hd => h d (by simp [hd]))]

/-! ## `RAG.ensure_vectordb` (RAG.py lines 240–259)

The Chroma store, the GCS sync and the embedding provider are external
capabilities; their observable behaviour on one call is captured by a record
of oracles, and the branch structure of `ensure_vectordb` is translated
directly. The catalog file content is carried as an explicit byte list so
that (in)dependence of the control flow on it can be stated. Note that the
source consults no fingerprint of the catalog anywhere: no stamp is read or
written in `RAG.py`.
-/

structure VdbEnv where
  /-- `sync_chroma_from_gcs(persist_dir)` raises (it is only invoked when
  `force_reindex` is false; with a store already present it returns early, so
  the reachable combination has `storeExists → ¬syncRaises`, but no proof
  below needs that restriction). -/
  syncRaises : Bool
  /-- Value of `chroma_persist_exists(persist_dir)` when `ensure_vectordb`
  tests it (after the sync step). -/
  storeExists : Bool
  /-- `try_load_vectordb(persist_dir)` returns a handle (vs `None`). -/
  loadOk : Bool
  /-- The 1-result probe `vectordb.similarity_search("probe", k=1)` raises. -/
  probeRaises : Bool
  /-- `index_chunks(catalog_path, persist_dir)` raises (embedding provider or
  persistence failure during a rebuild). -/
  indexRaises : Bool
  deriving DecidableEq

/-- Observable result of one `ensure_vectordb` call: a freshly rebuilt
handle, the reused handle opened from the persisted store, or a propagated
exception. -/
inductive VdbOutcome where
  | fresh : VdbOutcome
  | reused : VdbOutcome
  | raised : VdbOutcome
  deriving DecidableEq

/-- Outcome of `index_chunks` when a rebuild is attempted. -/
def index_chunks_outcome (env : VdbEnv) : VdbOutcome :=
  if env.indexRaises then .raised else .fresh

/-- Translation of `RAG.ensure_vectordb`. `catalog` is the catalog file's
byte content; the source hands it to `index_chunks` but never fingerprints
it, so it influences no branch. -/
def ensure_vectordb (env : VdbEnv) (catalog : List Nat) (force_reindex : Bool) : VdbOutcome :=
  have _ := catalog
  if !force_reindex && env.syncRaises then .raised
  else if force_reindex || !env.storeExists then index_chunks_outcome env
  else if !env.loadOk then index_chunks_outcome env
  else if env.probeRaises then index_chunks_outcome env
  else .reused

/-- A healthy persisted store: the sync step returns early, the store is
present, it loads, the probe succeeds, and the embedding provider works. -/
def healthyEnv : VdbEnv :=
  ⟨false, true, true, false, false⟩

/-! ## `workflow.py`: URL derivation, direct-answer option, execution split -/

def DIRECT_MODE : String := "direct"

def DIRECT_OPTION_LABEL : String := "Direct Answer"

/-- The slash-trimmed remainder of a child link after `strip()` and removal
of a leading `/server`: the path segment `derive_mcp_url` builds its URL
from. -/
def derivedPath (child_link : String) : List Char :=
  let trimmed := stripWs child_link.toList
  let trimmed := if leadMatch ("/server".toList) trimmed then trimmed.drop 7 else trimmed
  stripCharEnds '/' trimmed

/-- Translation of `workflow.derive_mcp_url`: reject a falsy (empty) link,
strip whitespace, strip a leading `/server`, trim slashes, reject an empty
remainder, and build the Smithery endpoint. Raised `ValueError`s are
modelled as `Except.error` carrying the message; the function performs no
network call. -/
def derive_mcp_url (child_link : String) : Except String String :=
  if child_link = "" then .error "Child link is required to derive the MCP URL."
  else if derivedPath child_link = [] then
    .error ("Unable to derive MCP path from child link: " ++ child_link)
  else .ok ("https://server.smithery.ai/" ++ String.mk (derivedPath child_link) ++ "/mcp")

/-- Translation of `workflow.extract_server_slug`: strip whitespace then
slashes, drop a leading `server/`, take the segment before the next `/`,
strip it, and reject an empty result. -/
def extract_server_slug (child_link : String) : Except String String :=
  if child_link = "" then .error "Child link is required to derive the server slug."
  else
    let trimmed := stripCharEnds '/' (stripWs child_link.toList)
    let trimmed := if leadMatch ("server/".toList) trimmed then trimmed.drop 7 else trimmed
    let slug := stripWs (trimmed.takeWhile (· ≠ '/'))
    if slug = [] then .error ("Unable to derive server slug from child link: " ++ child_link)
    else .ok (String.mk slug)

/-- One ranked-search result entry as handled by
`workflow.add_direct_answer_option` (a string-keyed dict in the source;
`mode` is absent on entries produced by the RAG search and `score` is
`None` on the synthetic entry). -/
structure ResultEntry where
  server : String
  child_link : String
  score : Option ℚ
  why : String
  mode : Option String
  deriving DecidableEq

/-- The synthetic entry appended by `add_direct_answer_option`. -/
def directEntry : ResultEntry :=
  ⟨DIRECT_OPTION_LABEL, "", none, "Skip MCP tools and answer directly.", some DIRECT_MODE⟩

/-- Translation of `workflow.add_direct_answer_option`: if any entry already
has `mode == "direct"` return the input unchanged, else return a copy of the
list with the synthetic direct entry appended. -/
def add_direct_answer_option (results : List ResultEntry) : List ResultEntry :=
  if results.any (fun item => item.mode = some DIRECT_MODE) then results
  else results ++ [directEntry]

/-- One conversation history item (a `{"role": …, "content": …}` dict whose
keys may be absent). -/
structure ChatTurn where
  role : Option String
  content : Option String
  deriving DecidableEq

/-- A chat message sent to the language model capability. -/
structure Msg where
  role : String
  content : String
  deriving DecidableEq

/-- Translation of `workflow.AgentRunEnvelope`. `raw_output` is an opaque
SDK payload in the source (`Any`); it is modelled as an optional opaque
string, which every claim treats as a black box. -/
structure AgentRunEnvelope where
  mcp_base_url : Option String
  final_output : String
  raw_output : Option String
  deriving DecidableEq

/-- The external language-model and agent capabilities consumed by
`workflow.py`: a chat completion (messages to returned content, plus the
serialized raw payload) and `notion_agent.run_smithery_task` (instruction to
final output, plus its raw payload). -/
structure LlmEnv where
  chat : List Msg → String
  chatRaw : String
  agentFinal : String → String
  agentRaw : Option String
  agentStr : String → String

/-- Python `history[-10:]`. -/
def lastTen (h : List ChatTurn) : List ChatTurn :=
  h.drop (h.length - 10)

/-- The message list built by `workflow._complete_direct_answer`: the fixed
system message, up to the last 10 history turns with blank contents skipped
(role defaulting to `user`, anything but `assistant` relabelled `user`), an
optional system note carrying the prior output, then the user instruction. -/
def directMessages (instruction : String) (history : Option (List ChatTurn))
    (prior_output : Option String) : List Msg :=
  let histMsgs : List Msg :=
    match history with
    | none => []
    | some h =>
      (lastTen h).filterMap (fun item =>
        let role := match item.role with
          | some r => if r = "" then "user" else r
          | none => "user"
        let content := pyStrip (item.content.getD "")
        if content = "" then none
        else some ⟨if role = "assistant" then "assistant" else "user", content⟩)
  let priorMsgs : List Msg :=
    match prior_output with
    | some p => if p = "" then [] else [⟨"system", "Earlier agent output to reference: " ++ p⟩]
    | none => []
  ⟨"system", "You are AgentNet. Answer directly. Do not call MCP tools."⟩ ::
    (histMsgs ++ priorMsgs ++ [⟨"user", instruction⟩])

/-- Translation of `workflow._complete_direct_answer`: route the built
message list to the chat capability; the envelope has no MCP base URL and
carries the stripped completion content and the serialized raw response. -/
def _complete_direct_answer (env : LlmEnv) (instruction : String)
    (history : Option (List ChatTurn)) (prior_output : Option String) : AgentRunEnvelope :=
  ⟨none, pyStrip (env.chat (directMessages instruction history prior_output)), some env.chatRaw⟩

/-- Translation of `workflow.execute_mcp_workflow`: resolve the base URL
from the truthy override or else by deriving it from the child link, derive
the server slug, run the agent task, and wrap the result. -/
def execute_mcp_workflow (env : LlmEnv) (notion_instruction : String) (child_link : String)
    (override : Option String) (include_raw_payload : Bool) :
    Except String AgentRunEnvelope :=
  let resolved : Except String String :=
    match override with
    | some o => if o = "" then derive_mcp_url child_link else .ok o
    | none => derive_mcp_url child_link
  match resolved with
  | .error e => .error e
  | .ok base_url =>
    match extract_server_slug child_link with
    | .error e => .error e
    | .ok _ =>
      if include_raw_payload then
        .ok ⟨some base_url, env.agentFinal notion_instruction, env.agentRaw⟩
      else
        .ok ⟨some base_url, env.agentStr notion_instruction, none⟩

/-- The `"Previous conversation:"` block prepended by
`execute_agent_workflow` on the MCP path: last 10 turns, blank contents
skipped, `User`/`Assistant` labels (the label is `User` exactly when the
stripped lowercased role is `user`). -/
def renderHistoryBlock (history : Option (List ChatTurn)) : String :=
  match history with
  | none => ""
  | some h =>
    let lines := (lastTen h).filterMap (fun item =>
      let role := lowerStr (pyStrip (item.role.getD ""))
      let content := pyStrip (item.content.getD "")
      if content = "" then none
      else some ((if role = "user" then "User" else "Assistant") ++ ": " ++ content))
    if lines = [] then "" else "Previous conversation:\n" ++ String.intercalate "\n" lines ++ "\n\n"

/-- The direct-mode test of `execute_agent_workflow`:
`mode == "direct" or not (child_link or "").strip()`. -/
def shouldDirect (mode : Option String) (child_link : Option String) : Prop :=
  mode = some DIRECT_MODE ∨ pyStrip (child_link.getD "") = ""

instance (mode : Option String) (child_link : Option String) :
    Decidable (shouldDirect mode child_link) :=
  inferInstanceAs (Decidable (_ ∨ _))

/-- Translation of `workflow.execute_agent_workflow`: in direct mode (or
with a blank child link) delegate to `_complete_direct_answer`; otherwise
enrich the instruction with the rendered history block and delegate to
`execute_mcp_workflow`. (`server_name` and `clarified_instruction` are
forwarded opaquely to the external agent and are not modelled.) -/
def execute_agent_workflow (env : LlmEnv) (notion_instruction : String)
    (child_link : Option String) (override : Option String) (include_raw_payload : Bool)
    (mode : Option String) (history : Option (List ChatTurn)) (prior_output : Option String) :
    Except String AgentRunEnvelope :=
  if shouldDirect mode child_link then
    .ok (_complete_direct_answer env notion_instruction history prior_output)
  else
    let ht := renderHistoryBlock history
    let enriched := if ht = "" then notion_instruction else ht ++ notion_instruction
    execute_mcp_workflow env enriched (child_link.getD "") override include_raw_payload

/-! ## `orchestrator._choose_tool` (orchestrator.py lines 331–358) -/

/-- One discovered tool as consumed by `_choose_tool`: only `name` and
`description` are read (via `tool.get(…) or ""`, hence `Option`); the tool's
schema and other keys are opaque to the selector. -/
structure ToolEntry where
  name : Option String
  description : Option String
  deriving DecidableEq

/-- `(tool.get(key) or "").lower()`. -/
def getLower (o : Option String) : String :=
  lowerStr (o.getD "")

/-- The designated action keywords of the scoring loop. -/
def actionKeywords : List String :=
  ["create", "plan", "page", "write", "generate"]

/-- The per-tool score of the source's loop: each keyword adds 2 when it
occurs in the lowercased name and (cumulatively) 1 when it occurs in the
lowercased description; each task token adds 2 when it occurs in the name,
else (`elif`) 1 when it occurs in the description. -/
def toolScore (taskTokens : List String) (tool : ToolEntry) : Nat :=
  let name := getLower tool.name
  let desc := getLower tool.description
  let kw := actionKeywords.foldl (fun acc k =>
    acc + (if strContains name k then 2 else 0) + (if strContains desc k then 1 else 0)) 0
  let tk := taskTokens.foldl (fun acc t =>
    acc + (if t ≠ "" ∧ strContains name t = true then 2
           else if t ≠ "" ∧ strContains desc t = true then 1 else 0)) 0
  kw + tk

/-- The fast path: the first tool whose lowercased name contains
`create:pages` (the `endswith` test in the source is subsumed by the
containment test and kept here verbatim). -/
def fastPathTool (tools : List ToolEntry) : Option ToolEntry :=
  tools.find? (fun tool =>
    strContains (getLower tool.name) "create:pages"
      || strEndsWith (getLower tool.name) "create:pages")

/-- The selection loop: `best_score` starts at `-1` and is replaced only on
a strictly greater score, so the first maximum wins. -/
def selectLoop (taskTokens : List String) :
    List ToolEntry → Int → Option ToolEntry → Option ToolEntry
  | [], _, best => best
  | t :: ts, bestScore, best =>
    if bestScore < (toolScore taskTokens t : Int) then
      selectLoop taskTokens ts (toolScore taskTokens t) (some t)
    else selectLoop taskTokens ts bestScore best

/-- Translation of `orchestrator._choose_tool`. The source's final
`best_tool or tools[0]` falls back to `tools[0]` only when `best_tool` is a
falsy (empty) dict, which can only be selected when it is `tools[0]` itself;
tools are modelled as records, so the fallback is reached only for the
impossible `none`. -/
def _choose_tool (user_task : String) (tools : List ToolEntry) : Option ToolEntry :=
  if tools.isEmpty then none
  else
    match fastPathTool tools with
    | some t => some t
    | none =>
      match selectLoop (splitWs (lowerStr user_task)) tools (-1) none with
      | some t => some t
      | none => tools.head?

/-- Maximum tool score over a list (0 on the empty list). -/
def maxToolScore (taskTokens : List String) (tools : List ToolEntry) : Nat :=
  (tools.map (toolScore taskTokens)).foldl max 0

/-- Claim-worded token scoring: `+2 per query token found in the tool's name
and +1 if found in its description`, read cumulatively like the (identically
phrased) keyword clause. Written from the claim text, to be compared with
the source's `toolScore`. -/
def claimToolScore (taskTokens : List String) (tool : ToolEntry) : Nat :=
  let name := getLower tool.name
  let desc := getLower tool.description
  let kw := actionKeywords.foldl (fun acc k =>
    acc + (if strContains name k then 2 else 0) + (if strContains desc k then 1 else 0)) 0
  let tk := taskTokens.foldl (fun acc t =>
    acc + (if strContains name t then 2 else 0) + (if strContains desc t then 1 else 0)) 0
  kw + tk

/-- Claim-worded maximum of `claimToolScore`. -/
def claimMaxToolScore (taskTokens : List String) (tools : List ToolEntry) : Nat :=
  (tools.map (claimToolScore taskTokens)).foldl max 0

/-- The selector described by the claim: none on an empty list, the fast
path, else the first tool attaining the maximum `claimToolScore` (ties keep
the first encountered; with all scores zero this is the first tool). Written
from the claim text, to be compared with `_choose_tool`. -/
def claimChooseTool (user_task : String) (tools : List ToolEntry) : Option ToolEntry :=
  if tools.isEmpty then none
  else
    match fastPathTool tools with
    | some t => some t
    | none =>
      let tokens := splitWs (lowerStr user_task)
      tools.find? (fun t => claimToolScore tokens t = claimMaxToolScore tokens tools)

/-- The amended selector: identical to the claim's except that a query token
found in the name contributes 2 and does not additionally contribute the
description point (the source's `elif`). -/
def amendedChooseTool (user_task : String) (tools : List ToolEntry) : Option ToolEntry :=
  if tools.isEmpty then none
  else
    match fastPathTool tools with
    | some t => some t
    | none =>
      let tokens := splitWs (lowerStr user_task)
      tools.find? (fun t => toolScore tokens t = maxToolScore tokens tools)

/-! ## `orchestrator.Planner.plan_arguments` (orchestrator.py lines 130–187) -/

/-- JSON values, as produced by `json.loads` on a model response. -/
inductive Json where
  | null : Json
  | bool : Bool → Json
  | num : ℚ → Json
  | str : String → Json
  | arr : List Json → Json
  | obj : List (String × Json) → Json

/-- Is this value a JSON object (`isinstance(parsed, dict)`)? -/
def Json.isObj : Json → Bool
  | .obj _ => true
  | _ => false

/-- Field lookup in a JSON object. -/
def lookupField (fields : List (String × Json)) (k : String) : Option Json :=
  match fields with
  | [] => none
  | (k', v) :: rest => if k' = k then some v else lookupField rest k

/-- A schema, in validator form: the check it performs on a JSON value,
returning the first violation message (mirroring `ValidationError.message`)
or success. The `jsonschema` library (`Draft202012Validator`) is an external
collaborator; the combinators below model full draft validation of the
keywords this repository's tool schemas use (`type` object/array/string,
`properties`, `required`, `items`, `minItems`, boolean
`additionalProperties`), with subschemas carried compositionally. -/
def JsonCheck : Type :=
  Json → Except String Unit

/-- The `{"type": "string"}` schema. -/
def strSchema : JsonCheck
  | .str _ => .ok ()
  | _ => .error "is not of type string"

/-- Run an item subschema over every array element. -/
def checkEach (item : JsonCheck) : List Json → Except String Unit
  | [] => .ok ()
  | x :: xs =>
    match item x with
    | .ok _ => checkEach item xs
    | .error m => .error m

/-- An array schema: `{"type": "array", "items": …, "minItems": …}`. -/
def arrSchema (item : JsonCheck) (minItems : Nat) : JsonCheck
  | .arr xs =>
    if xs.length < minItems then .error "is too short"
    else checkEach item xs
  | _ => .error "is not of type array"

/-- Check every listed property subschema against the matching field,
skipping absent fields (presence is the concern of `required`). -/
def checkProps (props : List (String × JsonCheck)) (fields : List (String × Json)) :
    Except String Unit :=
  match props with
  | [] => .ok ()
  | (k, sub) :: rest =>
    match lookupField fields k with
    | some fv =>
      match sub fv with
      | .ok _ => checkProps rest fields
      | .error m => .error m
    | none => checkProps rest fields

/-- An object schema: `{"type": "object", "properties": …, "required": …,
"additionalProperties": …}`. -/
def objSchema (props : List (String × JsonCheck)) (required : List String)
    (additional : Bool) : JsonCheck
  | .obj fields =>
    match required.find? (fun r => (lookupField fields r).isNone) with
    | some r => .error (r ++ " is a required property")
    | none =>
      if additional = false ∧ ¬ (fields.all (fun f => props.any (fun p => p.1 = f.1))) then
        .error "additional properties are not allowed"
      else checkProps props fields
  | _ => .error "is not of type object"

/-- The two `ValueError` families raised by `Planner._parse_json` and
`Planner.plan_arguments`: unusable model output (`PlanningError` in the
specification's taxonomy) and schema nonconformance (`SchemaValidationError`)
carrying the validator's message. -/
inductive PlanError where
  | invalidJson : String → PlanError
  | notObject : PlanError
  | schemaViolation : String → PlanError

/-- Translation of `Planner._parse_json`. The raw model response is carried
as `none` when `json.loads` fails on it, `some v` when it parses to `v`:
parse failure and non-object results each raise. -/
def _parse_json : Option Json → Except PlanError Json
  | none => .error (.invalidJson "Model output was not valid JSON")
  | some j => if j.isObj then .ok j else .error .notObject

/-- Translation of `Planner.plan_arguments` from the point where the
language-model capability has produced its response (the prompt assembly
feeds the external model and influences no control flow): parse, validate
against the supplied schema with the full-draft validator model, and return
the parsed object unchanged on success. (The source's guard that
`tool_schema` is a dict is realised by the `JsonCheck` type of the
argument.) -/
def plan_arguments (tool_schema : JsonCheck) (response : Option Json) :
    Except PlanError Json :=
  match _parse_json response with
  | .error e => .error e
  | .ok args =>
    match tool_schema args with
    | .ok _ => .ok args
    | .error m => .error (.schemaViolation m)

/-! ## Concrete inputs used by scenarios, witnesses and counterexamples -/

def docA1 : Doc := ⟨⟨"A", "/server/a", "", ""⟩, "[Server: A]\nUse for: alpha task"⟩

def docB1 : Doc := ⟨⟨"B", "/server/b", "", ""⟩, "[Server: B]\nUse for: beta task"⟩

def docA2 : Doc := ⟨⟨"A", "/server/a", "", ""⟩, "[Server: A]\nUse for: another alpha"⟩

/-- The ranking-aggregation scenario of the claims: servers `[A, B, A]` at
overall ranks 1, 2, 3. -/
def demoDocs : List Doc := [docA1, docB1, docA2]

/-- A retrieved hit whose metadata lacks a server name. -/
def blankDoc : Doc := ⟨⟨"", "", "", ""⟩, ""⟩

/-- Hits giving servers A and B the equal score 1
(A: 1/1; B: 1/2 + 1/3 + 1/6, with two nameless hits burning ranks 4, 5). -/
def tieDocs : List Doc := [docA1, docB1, docB1, blankDoc, blankDoc, docB1]

def tieGroupA : Group := ⟨"A", 1, [docA1]⟩

def tieGroupB : Group := ⟨"B", 1, [docB1, docB1, docB1]⟩

def demoSchema : JsonCheck :=
  objSchema [("title", strSchema), ("content", arrSchema strSchema 1)] ["title", "content"] false

def goodResp : Json := .obj [("title", .str "Plan"), ("content", .arr [.str "a", .str "b"])]

def badResp : Json := .obj [("title", .str "Plan")]

def demoLlmEnv : LlmEnv :=
  ⟨fun _ => "direct reply", "chat raw", fun _ => "agent reply", some "agent raw", fun _ => "agent str"⟩

def toolT : ToolEntry := ⟨some "t", some "t"⟩

def toolPage : ToolEntry := ⟨some "page", some "page"⟩

/-! ## Claim theorems -/

/-- C1 (code bug): the shipped `ensure_vectordb` consults no catalog
fingerprint — no stamp is read or written anywhere in `RAG.py` — so with a
healthy persisted store and `force_reindex=False` it reuses the index for
any catalog bytes whatsoever: a one-byte catalog change triggers no rebuild,
contradicting the claim (and the repository's own
`tests/unit/test_rag.py::test_ensure_vectordb_reindexes_when_changed`,
which monkeypatches `RAG.compute_content_hash` / `read_hash_stamp` /
`write_hash_stamp` — attributes the shipped module does not even have). The
last conjunct shows the outcome is independent of the catalog for every
environment. -/
theorem ensure_vectordb_ignores_catalog_change :
    ensure_vectordb healthyEnv [0, 1, 2] false = .reused
    ∧ ensure_vectordb healthyEnv [0, 1, 3] false = .reused
    ∧ ([0, 1, 2] : List Nat) ≠ [0, 1, 3]
    ∧ (∀ (env : VdbEnv) (c₁ c₂ : List Nat) (force : Bool),
        ensure_vectordb env c₁ force = ensure_vectordb env c₂ force) :=
  ⟨rfl, rfl, by decide, fun _ _ _ _ => rfl⟩

/-- C3 (code bug): `sanitize_description` substitutes the WHOLE match of
`<[^>]+>(.*?)</[^>]+>` — inner text included — with a single space, so on
the round-trip input of the claim (and of the repository's own tests in
`tests/unit/test_rag.py`, `tests/test_rag.py`, `tests/test_rag_legacy.py`)
it returns `"</p>"`, not `"Hello world"`. -/
theorem sanitize_description_drops_inner_text :
    sanitize_description "<p>Hello <b>world</b></p>" = "</p>"
    ∧ sanitize_description "<p>Hello <b>world</b></p>" ≠ "Hello world" :=
  ⟨by decide, by decide⟩

/-- C6: on the reuse path (no force, sync returned, store present, load
succeeded), `ensure_vectordb` issues the 1-result probe; a failing probe
triggers a full rebuild whose fresh handle is returned, errors surfacing
only if the rebuild itself fails; a successful probe returns the opened
handle. -/
theorem ensure_vectordb_probe_self_heals (env : VdbEnv) (catalog : List Nat)
    (hsync : env.syncRaises = false) (hstore : env.storeExists = true)
    (hload : env.loadOk = true) :
    (env.probeRaises = false → ensure_vectordb env catalog false = .reused)
    ∧ (env.probeRaises = true → env.indexRaises = false →
        ensure_vectordb env catalog false = .fresh)
    ∧ (env.probeRaises = true → env.indexRaises = true →
        ensure_vectordb env catalog false = .raised) := by
  refine ⟨fun hp => ?_, fun hp hi => ?_, fun hp hi => ?_⟩
  · simp [ensure_vectordb, index_chunks_outcome, hsync, hstore, hload, hp]
  · simp [ensure_vectordb, index_chunks_outcome, hsync, hstore, hload, hp, hi]
  · simp [ensure_vectordb, index_chunks_outcome, hsync, hstore, hload, hp, hi]

/-- Witness for C6 at a concrete corrupt-store environment: probe fails,
rebuild succeeds, the fresh handle is returned. -/
theorem ensure_vectordb_probe_self_heals_witness :
    ensure_vectordb ⟨false, true, true, true, false⟩ [7] false = .fresh :=
  (ensure_vectordb_probe_self_heals ⟨false, true, true, true, false⟩ [7] rfl rfl rfl).2.1 rfl rfl

/-- C8: `derive_mcp_url` maps `/server/notion` to exactly
`https://server.smithery.ai/notion/mcp`; an empty child link, or one whose
remainder after whitespace-strip, `/server`-removal and slash-trimming is
empty, raises the derivation error (the function is pure — it performs no
network call). -/
theorem derive_mcp_url_spec :
    derive_mcp_url "/server/notion" = .ok "https://server.smithery.ai/notion/mcp"
    ∧ derive_mcp_url "" = .error "Child link is required to derive the MCP URL."
    ∧ (∀ s : String, s ≠ "" → derivedPath s = [] →
        derive_mcp_url s = .error ("Unable to derive MCP path from child link: " ++ s)) := by
  refine ⟨rfl, rfl, fun s hs hp => ?_⟩
  simp [derive_mcp_url, hs, hp]

/-- Witness for C8 at `"/server/"`, a link that empties after stripping. -/
theorem derive_mcp_url_spec_witness :
    derive_mcp_url "/server/" =
      .error ("Unable to derive MCP path from child link: " ++ "/server/") :=
  derive_mcp_url_spec.2.2 "/server/" (by decide) (by decide)

/-- C10: `add_direct_answer_option` returns the list unchanged when a
direct entry is already present, else appends exactly the synthetic
`Direct Answer` entry (empty child link, `None` score, mode `direct`) to a
copy; it is idempotent and the input entries survive unmodified as a prefix
of the output. -/
theorem add_direct_answer_option_spec :
    (∀ rs : List ResultEntry, (∃ e ∈ rs, e.mode = some DIRECT_MODE) →
        add_direct_answer_option rs = rs)
    ∧ (∀ rs : List ResultEntry, (∀ e ∈ rs, e.mode ≠ some DIRECT_MODE) →
        add_direct_answer_option rs = rs ++ [directEntry])
    ∧ (∀ rs : List ResultEntry,
        add_direct_answer_option (add_direct_answer_option rs) = add_direct_answer_option rs)
    ∧ (∀ rs : List ResultEntry, rs <+: add_direct_answer_option rs)
    ∧ directEntry.server = DIRECT_OPTION_LABEL ∧ directEntry.child_link = ""
    ∧ directEntry.score = none ∧ directEntry.mode = some DIRECT_MODE := by
  have hany : ∀ rs : List ResultEntry,
      rs.any (fun item => item.mode = some DIRECT_MODE) = true ↔
        ∃ e ∈ rs, e.mode = some DIRECT_MODE := by
    intro rs
    simp [List.any_eq_true]
  refine ⟨fun rs h => ?_, fun rs h => ?_, fun rs => ?_, fun rs => ?_, rfl, rfl, rfl, rfl⟩
  · simp [add_direct_answer_option, (hany rs).mpr h]
  · have : rs.any (fun item => item.mode = some DIRECT_MODE) = false := by
      rw [← Bool.not_eq_true, hany rs]
      push_neg
      exact h
    simp [add_direct_answer_option, this]
  · by_cases h : rs.any (fun item => item.mode = some DIRECT_MODE) = true
    · simp [add_direct_answer_option, h]
    · have h2 : (rs ++ [directEntry]).any (fun item => item.mode = some DIRECT_MODE) = true := by
        rw [hany]
        exact ⟨directEntry, by simp, rfl⟩
      simp [add_direct_answer_option, h, h2]
  · by_cases h : rs.any (fun item => item.mode = some DIRECT_MODE) = true
    · simp [add_direct_answer_option, h]
    · simp only [add_direct_answer_option, h, Bool.false_eq_true, if_false, if_neg]
      exact ⟨[directEntry], rfl⟩

/-- Witness for C10: a list already holding the direct entry is returned
unchanged; the empty list gets exactly the synthetic entry appended. -/
theorem add_direct_answer_option_spec_witness :
    add_direct_answer_option [directEntry] = [directEntry]
    ∧ add_direct_answer_option [] = [] ++ [directEntry] :=
  ⟨add_direct_answer_option_spec.1 [directEntry] ⟨directEntry, by simp, rfl⟩,
   add_direct_answer_option_spec.2.1 [] (by simp)⟩

/-- C4: `plan_arguments` raises the planning `ValueError` when the model
response is not valid JSON or not a JSON object; otherwise it validates the
parsed object against the supplied schema and raises the schema-validation
`ValueError` carrying the validator's message on failure; on success it
returns the parsed object unchanged. The scenario instantiates the claim's
schema (`title` string, `content` string array with `minItems` 1). -/
theorem plan_arguments_spec :
    (∀ s : JsonCheck,
        plan_arguments s none = .error (.invalidJson "Model output was not valid JSON"))
    ∧ (∀ (s : JsonCheck) (j : Json), j.isObj = false →
        plan_arguments s (some j) = .error .notObject)
    ∧ (∀ (s : JsonCheck) (j : Json), j.isObj = true → s j = .ok () →
        plan_arguments s (some j) = .ok j)
    ∧ (∀ (s : JsonCheck) (j : Json) (m : String), j.isObj = true → s j = .error m →
        plan_arguments s (some j) = .error (.schemaViolation m))
    ∧ plan_arguments demoSchema (some goodResp) = .ok goodResp
    ∧ plan_arguments demoSchema (some badResp) =
        .error (.schemaViolation "content is a required property") := by
  refine ⟨fun s => rfl, fun s j hj => ?_, fun s j hj hv => ?_, fun s j m hj hv => ?_, rfl, rfl⟩
  · simp [plan_arguments, _parse_json, hj]
  · simp [plan_arguments, _parse_json, hj, hv]
  · simp [plan_arguments, _parse_json, hj, hv]

/-- Witness for C4: the branch hypotheses discharged at the claim's own
scenario schema and stubbed responses. -/
theorem plan_arguments_spec_witness :
    plan_arguments demoSchema (some goodResp) = .ok goodResp
    ∧ plan_arguments demoSchema (some badResp) =
        .error (.schemaViolation "content is a required property")
    ∧ plan_arguments demoSchema (some (.arr [])) = .error .notObject :=
  ⟨plan_arguments_spec.2.2.1 demoSchema goodResp rfl rfl,
   plan_arguments_spec.2.2.2.1 demoSchema badResp "content is a required property" rfl rfl,
   plan_arguments_spec.2.1 demoSchema (.arr []) rfl⟩

/-- C7 counterexample: a non-direct execution with a supplied
`notion_mcp_base_url_override` puts the override — not the endpoint derived
from the child link — into the envelope, refuting the claim's final clause. -/
theorem execute_agent_workflow_override_counterexample :
    execute_agent_workflow demoLlmEnv "task" (some "/server/notion")
        (some "https://example.com/mcp") true none none none =
      .ok ⟨some "https://example.com/mcp", "agent reply", some "agent raw"⟩
    ∧ derive_mcp_url "/server/notion" = .ok "https://server.smithery.ai/notion/mcp"
    ∧ ¬ shouldDirect none (some "/server/notion")
    ∧ ("https://example.com/mcp" : String) ≠ "https://server.smithery.ai/notion/mcp" :=
  ⟨rfl, rfl, by decide, by decide⟩

/-- C7 (amended): `execute_agent_workflow` routes to the direct chat
completion — built from the task, up to the last 10 non-blank history turns
and the optional prior output — with no `mcp_base_url`, exactly when `mode`
is `direct` or the child link is blank; every non-direct execution that
returns an envelope carries `some` base URL: the non-empty override when one
is supplied, otherwise the endpoint derived from the child link. -/
theorem execute_agent_workflow_amended_spec (env : LlmEnv) (instr : String)
    (link : Option String) (override : Option String) (raw : Bool) (mode : Option String)
    (hist : Option (List ChatTurn)) (prior : Option String) :
    (shouldDirect mode link →
      execute_agent_workflow env instr link override raw mode hist prior =
        .ok ⟨none, pyStrip (env.chat (directMessages instr hist prior)), some env.chatRaw⟩)
    ∧ (¬ shouldDirect mode link →
        (∀ o : String, override = some o → o ≠ "" →
          ∀ e : AgentRunEnvelope,
            execute_agent_workflow env instr link override raw mode hist prior = .ok e →
            e.mcp_base_url = some o)
        ∧ ((override = none ∨ override = some "") →
          ∀ (e : AgentRunEnvelope) (u : String), derive_mcp_url (link.getD "") = .ok u →
            execute_agent_workflow env instr link override raw mode hist prior = .ok e →
            e.mcp_base_url = some u)) := by
  constructor
  · intro hd
    simp [execute_agent_workflow, hd, _complete_direct_answer]
  · intro hd
    constructor
    · intro o ho hne e hrun
      subst ho
      simp only [execute_agent_workflow, if_neg hd] at hrun
      simp [execute_mcp_workflow, hne] at hrun
      rcases hs : extract_server_slug (link.getD "") with m | slug <;> rw [hs] at hrun
      · cases hrun
      · cases raw <;> simp at hrun <;> simp [← hrun]
    · intro ho e u hu hrun
      simp only [execute_agent_workflow, if_neg hd] at hrun
      rcases ho with ho | ho <;> subst ho <;> simp [execute_mcp_workflow, hu] at hrun <;>
        rcases hs : extract_server_slug (link.getD "") with m | slug <;> rw [hs] at hrun
      · cases hrun
      · cases raw <;> simp at hrun <;> simp [← hrun]
      · cases hrun
      · cases raw <;> simp at hrun <;> simp [← hrun]

/-- Witness for C7: the direct branch at `mode="direct"`, and the non-direct
branches at a concrete override and at a derivable child link. -/
theorem execute_agent_workflow_amended_spec_witness :
    (execute_agent_workflow demoLlmEnv "task" (some "/server/notion") none true
        (some "direct") none none =
      .ok ⟨none, pyStrip (demoLlmEnv.chat (directMessages "task" none none)), some demoLlmEnv.chatRaw⟩)
    ∧ (⟨some "https://example.com/mcp", "agent reply", some "agent raw"⟩ :
        AgentRunEnvelope).mcp_base_url = some "https://example.com/mcp"
    ∧ (⟨some "https://server.smithery.ai/notion/mcp", "agent reply", some "agent raw"⟩ :
        AgentRunEnvelope).mcp_base_url = some "https://server.smithery.ai/notion/mcp" :=
  ⟨(execute_agent_workflow_amended_spec demoLlmEnv "task" (some "/server/notion") none true
      (some "direct") none none).1 (Or.inl rfl),
   ((execute_agent_workflow_amended_spec demoLlmEnv "task" (some "/server/notion")
      (some "https://example.com/mcp") true none none none).2 (by decide)).1
      "https://example.com/mcp" rfl (by decide) _ rfl,
   ((execute_agent_workflow_amended_spec demoLlmEnv "task" (some "/server/notion")
      none true none none none).2 (by decide)).2 (Or.inl rfl) _
      "https://server.smithery.ai/notion/mcp" rfl rfl⟩

/-! ## Tool-selection lemmas: the first-maximum scan of `_choose_tool` -/


theorem foldl_max_eq_max (l : List Nat) : ∀ a : Nat, l.foldl max a = max a (l.foldl max 0) := by
  induction l with
  | nil => intro a; simp
  | cons x xs ih =>
    intro a
    simp only [List.foldl]
    rw [ih (max a x), ih (max 0 x), Nat.zero_max, Nat.max_assoc]

theorem maxToolScore_cons (ts : List String) (t : ToolEntry) (l : List ToolEntry) :
    maxToolScore ts (t :: l) = max (toolScore ts t) (maxToolScore ts l) := by
  simp only [maxToolScore, List.map, List.foldl]
  rw [foldl_max_eq_max, Nat.zero_max]

theorem nat_max_absorb {a b x : Nat} (h : b ≤ a) : max a (max b x) = max a x := by
  rcases Nat.le_total b x with hbx | hxb
  · rw [Nat.max_eq_right hbx]
  · rw [Nat.max_eq_left hxb, Nat.max_eq_left h, Nat.max_eq_left (le_trans hxb h)]

theorem selectLoop_find_max (ts : List String) :
    ∀ (us : List ToolEntry) (c : ToolEntry),
      selectLoop ts us (toolScore ts c) (some c) =
        (c :: us).find? (fun t => toolScore ts t = maxToolScore ts (c :: us)) := by
  intro us
  induction us with
  | nil =>
    intro c
    simp [selectLoop, List.find?, maxToolScore]
  | cons u us ih =>
    intro c
    by_cases hcu : toolScore ts c < toolScore ts u
    · have hint : (toolScore ts c : Int) < (toolScore ts u : Int) := by exact_mod_cast hcu
      have hM2 : toolScore ts u ≤ maxToolScore ts (u :: us) := by
        rw [maxToolScore_cons]; exact Nat.le_max_left _ _
      have hMeq : maxToolScore ts (c :: u :: us) = maxToolScore ts (u :: us) := by
        rw [maxToolScore_cons ts c (u :: us)]
        exact Nat.max_eq_right (le_of_lt (lt_of_lt_of_le hcu hM2))
      have hcne : ¬ (toolScore ts c = maxToolScore ts (u :: us)) :=
        Nat.ne_of_lt (lt_of_lt_of_le hcu hM2)
      have step : selectLoop ts (u :: us) (toolScore ts c) (some c) =
          selectLoop ts us (toolScore ts u) (some u) := by
        simp [selectLoop, hint]
      rw [step, ih u]
      simp only [hMeq]
      exact (List.find?_cons_of_neg _ (by simpa using hcne)).symm
    · have hge : toolScore ts u ≤ toolScore ts c := Nat.le_of_not_lt hcu
      have hint : ¬ ((toolScore ts c : Int) < (toolScore ts u : Int)) := by exact_mod_cast hcu
      have hMeq : maxToolScore ts (c :: u :: us) = maxToolScore ts (c :: us) := by
        rw [maxToolScore_cons ts c (u :: us), maxToolScore_cons ts u us,
          maxToolScore_cons ts c us]
        exact nat_max_absorb hge
      have step : selectLoop ts (u :: us) (toolScore ts c) (some c) =
          selectLoop ts us (toolScore ts c) (some c) := by
        simp [selectLoop, hint]
      rw [step, ih c]
      simp only [hMeq]
      by_cases hc : toolScore ts c = maxToolScore ts (c :: us)
      · rw [List.find?_cons_of_pos _ (by simpa using hc),
          List.find?_cons_of_pos _ (by simpa using hc)]
      · have hcle : toolScore ts c ≤ maxToolScore ts (c :: us) := by
          rw [maxToolScore_cons]; exact Nat.le_max_left _ _
        have hclt : toolScore ts c < maxToolScore ts (c :: us) := lt_of_le_of_ne hcle hc
        have hune : ¬ (toolScore ts u = maxToolScore ts (c :: us)) := by
          intro hEq
          exact absurd hclt (not_lt.mpr (hEq ▸ hge))
        rw [List.find?_cons_of_neg _ (by simpa using hc),
          List.find?_cons_of_neg _ (by simpa using hc)]
        exact (List.find?_cons_of_neg _ (by simpa using hune)).symm

theorem maxToolScore_attained (ts : List String) :
    ∀ l : List ToolEntry, l ≠ [] → ∃ u ∈ l, toolScore ts u = maxToolScore ts l := by
  intro l
  induction l with
  | nil => intro h; exact absurd rfl h
  | cons t l ih =>
    intro _
    cases l with
    | nil =>
      refine ⟨t, by simp, ?_⟩
      simp [maxToolScore, Nat.zero_max]
    | cons v vs =>
      rcases ih (by simp) with ⟨u, hu, hmax⟩
      rcases Nat.le_total (maxToolScore ts (v :: vs)) (toolScore ts t) with h | h
      · exact ⟨t, by simp, by rw [maxToolScore_cons, Nat.max_eq_left h]⟩
      · exact ⟨u, by simp [hu], by rw [maxToolScore_cons, Nat.max_eq_right h, hmax]⟩

theorem _choose_tool_eq_amended (task : String) (tools : List ToolEntry) :
    _choose_tool task tools = amendedChooseTool task tools := by
  cases tools with
  | nil => rfl
  | cons t rest =>
    cases hf : fastPathTool (t :: rest) with
    | some u => simp [_choose_tool, amendedChooseTool, hf]
    | none =>
      have hneg : (-1 : Int) < (toolScore (splitWs (lowerStr task)) t : Int) := by
        have := Int.ofNat_nonneg (toolScore (splitWs (lowerStr task)) t)
        omega
      have hstep : selectLoop (splitWs (lowerStr task)) (t :: rest) (-1) none =
          selectLoop (splitWs (lowerStr task)) rest
            (toolScore (splitWs (lowerStr task)) t) (some t) := by
        simp [selectLoop, hneg]
      have hfind := selectLoop_find_max (splitWs (lowerStr task)) rest t
      rcases hsome : (t :: rest).find? (fun x =>
          toolScore (splitWs (lowerStr task)) x =
            maxToolScore (splitWs (lowerStr task)) (t :: rest)) with _ | u
      · rcases maxToolScore_attained (splitWs (lowerStr task)) (t :: rest) (by simp)
          with ⟨u, hu, hmax⟩
        have := List.find?_eq_none.mp hsome u hu
        simp [hmax] at this
      · simp [_choose_tool, amendedChooseTool, hf, hstep, hfind, hsome]

/-- C5 counterexample: with task `"t"` and tools named `t` (description `t`)
and `page` (description `page`), the source's `elif` token scoring picks the
`page` tool (scores 2 vs 3), while the claim's cumulative token scoring ties
them at 3 and its first-tie rule picks the `t` tool. -/
theorem choose_tool_token_scoring_counterexample :
    _choose_tool "t" [toolT, toolPage] = some toolPage
    ∧ claimChooseTool "t" [toolT, toolPage] = some toolT
    ∧ toolT ≠ toolPage :=
  ⟨by decide, by decide, by decide⟩

/-- C5 (amended): `_choose_tool` returns none exactly on an empty tool list;
a tool whose name contains the fixed `create:pages` token is selected
immediately (first such tool); otherwise the first tool attaining the
maximum score is selected, where a query token contributes 2 when found in
the name, else 1 when found only in the description (not cumulatively —
keyword points remain cumulative), and an all-zero scoring falls back to the
first tool (the first tool attains the maximum 0). -/
theorem choose_tool_amended_spec :
    (∀ (task : String) (tools : List ToolEntry),
        _choose_tool task tools = none ↔ tools = [])
    ∧ (∀ (task : String) (tools : List ToolEntry) (t : ToolEntry),
        fastPathTool tools = some t → _choose_tool task tools = some t)
    ∧ (∀ (task : String) (tools : List ToolEntry),
        _choose_tool task tools = amendedChooseTool task tools) := by
  refine ⟨fun task tools => ?_, fun task tools t hf => ?_, fun task tools => ?_⟩
  · constructor
    · intro hnone
      cases tools with
      | nil => rfl
      | cons t rest =>
        exfalso
        rw [_choose_tool_eq_amended] at hnone
        cases hf : fastPathTool (t :: rest) with
        | some u => simp [amendedChooseTool, hf] at hnone
        | none =>
          rcases maxToolScore_attained (splitWs (lowerStr task)) (t :: rest) (by simp)
            with ⟨u, hu, hmax⟩
          simp only [amendedChooseTool, List.isEmpty_cons, Bool.false_eq_true, if_false, hf] at hnone
          have := List.find?_eq_none.mp hnone u hu
          simp [hmax] at this
    · intro h
      rw [h]
      rfl
  · cases tools with
    | nil => cases hf
    | cons u rest => simp [_choose_tool, hf]
  · exact _choose_tool_eq_amended task tools

/-- Witness for C5's amended theorem: the empty-list direction and the fast
path at a concrete `create:pages` tool. -/
theorem choose_tool_amended_spec_witness :
    _choose_tool "anything" [] = none
    ∧ _choose_tool "anything" [⟨some "notion:create:pages", none⟩, toolPage] =
        some ⟨some "notion:create:pages", none⟩ :=
  ⟨(choose_tool_amended_spec.1 "anything" []).mpr rfl,
   choose_tool_amended_spec.2.1 "anything" [⟨some "notion:create:pages", none⟩, toolPage]
     ⟨some "notion:create:pages", none⟩ (by decide)⟩

/-! ## Ranking claim theorems -/


/-- Any emitted ranked record names a non-empty server and carries exactly
that server’s reciprocal-rank sum. -/
theorem mem_score_and_rank {docs : List Doc} {top : Nat} {r : RankedServer}
    (hr : r ∈ score_and_rank_servers docs top) :
    r.server ≠ "" ∧ r.score = rrScore docs r.server := by
  have hr2 : r ∈ rank_servers_full docs := List.take_subset top _ hr
  rcases List.mem_map.mp hr2 with ⟨g, hg, hgr⟩
  have hg2 : g ∈ groupedServers docs := (List.mem_insertionSort rankGE).mp hg
  rcases groupedServers_spec docs g hg2 with ⟨hne, hscore⟩
  rw [← hgr]
  exact ⟨hne, hscore⟩

/-- The full ranking is descending in accumulated score. -/
theorem rank_servers_full_sorted (docs : List Doc) :
    (rank_servers_full docs).Sorted (fun a b => b.score ≤ a.score) := by
  have h := List.sorted_insertionSort rankGE (groupedServers docs)
  exact List.pairwise_map.mpr h

/-- C2: every emitted record’s score is the accumulation, per `server_name`,
of the reciprocal-rank weights `1/rank` of its hits at their 1-based overall
positions; the output is sorted by score descending and truncated to
`top_servers`; equal accumulated scores preserve the first-occurrence
(embedding-search) order, insertion sort being stable for `rankGE`; and on
hits `[A, B, A]` at ranks 1, 2, 3, server A scores `4/3 ≈ 1.333`, server B
`1/2`, with A ranked first. -/
theorem score_and_rank_servers_spec :
    (∀ (docs : List Doc) (top : Nat) (r : RankedServer),
        r ∈ score_and_rank_servers docs top →
          r.server ≠ "" ∧ r.score = rrScore docs r.server)
    ∧ (∀ (docs : List Doc) (top : Nat),
        (score_and_rank_servers docs top).Sorted (fun a b => b.score ≤ a.score)
        ∧ (score_and_rank_servers docs top).length ≤ top)
    ∧ (∀ (docs : List Doc) (a b : Group),
        List.Sublist [a, b] (groupedServers docs) → a.score = b.score →
        List.Sublist [toRanked a, toRanked b] (rank_servers_full docs))
    ∧ score_and_rank_servers demoDocs 3 =
        [⟨"A", "/server/a", 4/3⟩, ⟨"B", "/server/b", 1/2⟩] := by
  refine ⟨fun docs top r hr => mem_score_and_rank hr, fun docs top => ⟨?_, ?_⟩,
    fun docs a b hsub heq => ?_, ?_⟩
  · exact List.Pairwise.sublist (List.take_sublist _ _) (rank_servers_full_sorted docs)
  · simp [score_and_rank_servers, List.length_take]
  · have hab : rankGE a b := le_of_eq heq.symm
    have h1 := List.pair_sublist_insertionSort hab hsub
    exact List.Sublist.map toRanked h1
  · norm_num [score_and_rank_servers, rank_servers_full, groupedServers, groupHits, addHit,
      toRanked, groupChildLink, rankGE, List.insertionSort, List.orderedInsert,
      demoDocs, docA1, docB1, docA2, (by decide : ("B" : String) ≠ "A"),
      (by decide : ("A" : String) ≠ ""), (by decide : ("B" : String) ≠ ""),
      (by decide : ("/server/a" : String) ≠ ""), (by decide : ("/server/b" : String) ≠ "")]

/-- Witness for C2: the membership hypothesis discharged on the scenario
output, and the stability hypothesis discharged on the equal-score run
`tieDocs` (A and B both score 1). -/
theorem score_and_rank_servers_spec_witness :
    ((⟨"A", "/server/a", 4/3⟩ : RankedServer).server ≠ ""
      ∧ (⟨"A", "/server/a", 4/3⟩ : RankedServer).score = rrScore demoDocs "A")
    ∧ List.Sublist [toRanked tieGroupA, toRanked tieGroupB] (rank_servers_full tieDocs) := by
  constructor
  · refine score_and_rank_servers_spec.1 demoDocs 3 _ ?_
    rw [score_and_rank_servers_spec.2.2.2]
    simp
  · refine score_and_rank_servers_spec.2.2.1 tieDocs tieGroupA tieGroupB ?_ rfl
    have h : groupedServers tieDocs = [tieGroupA, tieGroupB] := by
      norm_num [groupedServers, groupHits, addHit, tieDocs, docA1, docB1, blankDoc,
        tieGroupA, tieGroupB, (by decide : ("B" : String) ≠ "A"),
        (by decide : ("A" : String) ≠ "B"),
        (by decide : ("A" : String) ≠ ""), (by decide : ("B" : String) ≠ "")]
    rw [h]

/-- C9: a retrieved hit whose metadata lacks a non-empty `server_name`
neither appears in nor contributes any reciprocal-rank weight to the ranked
output: every emitted record names a non-empty server and scores exactly the
reciprocal-rank sum of the hits bearing that (non-empty) name; a result set
of only nameless hits ranks no servers at all. -/
theorem ranking_excludes_empty_server_name :
    (∀ (docs : List Doc) (top : Nat) (r : RankedServer),
        r ∈ score_and_rank_servers docs top →
          r.server ≠ "" ∧ r.score = rrScore docs r.server)
    ∧ (∀ (docs : List Doc) (top : Nat),
        (∀ d ∈ docs, d.metadata.server_name = "") →
        score_and_rank_servers docs top = []) := by
  refine ⟨fun docs top r hr => mem_score_and_rank hr, fun docs top hall => ?_⟩
  have h : groupedServers docs = [] := groupHits_all_empty docs 1 [] hall
  simp [score_and_rank_servers, rank_servers_full, h, List.insertionSort]

/-- Witness for C9: the membership hypothesis discharged on `tieDocs`
(which interleaves two nameless hits at ranks 4 and 5), and the all-blank
hypothesis discharged on two nameless hits. -/
theorem ranking_excludes_empty_server_name_witness :
    ((toRanked tieGroupA).server ≠ ""
      ∧ (toRanked tieGroupA).score = rrScore tieDocs (toRanked tieGroupA).server)
    ∧ score_and_rank_servers [blankDoc, blankDoc] 3 = [] := by
  constructor
  · refine ranking_excludes_empty_server_name.1 tieDocs 5 (toRanked tieGroupA) ?_
    have h : score_and_rank_servers tieDocs 5 = [toRanked tieGroupA, toRanked tieGroupB] := by
      norm_num [score_and_rank_servers, rank_servers_full, groupedServers, groupHits, addHit,
        toRanked, groupChildLink, rankGE, List.insertionSort, List.orderedInsert,
        tieDocs, docA1, docB1, blankDoc, tieGroupA, tieGroupB,
        (by decide : ("B" : String) ≠ "A"), (by decide : ("A" : String) ≠ "B"),
        (by decide : ("A" : String) ≠ ""), (by decide : ("B" : String) ≠ ""),
        (by decide : ("/server/a" : String) ≠ ""), (by decide : ("/server/b" : String) ≠ "")]
    rw [h]
    simp
  · exact ranking_excludes_empty_server_name.2 [blankDoc, blankDoc] 3 (by decide)

end AgentNet
